import Mathlib

/-!
Verification development for the dynamic multi-LoRA slot subsystem of
`src/js/modelManager.js` (comfyui-model-manager-nodes).

The JavaScript code is embedded shallowly:
* a slot widget's object value `{ on, lora, strength, strengthTwo }` becomes
  the structure `SlotValue` (JS `null`/absent secondary strength is `Option.none`);
* JS numbers are modelled as rationals (`ℚ`); `Math.round(x)` is `⌊x + 1/2⌋`,
  which is exactly JS semantics (round half toward +∞);
* the pointer handler `w.mouse` becomes the transition function `widgetMouse`
  over an explicit `WidgetState`, with DOM side effects (opening the inline
  strength overlay, opening the LoRA dropdown) reified as outputs in `MouseOut`;
* node lifecycle hooks (`onPropertyChanged`, `configure`, `serializeValue`,
  the API-JSON upgrade pass in `onNodeCreated`) become pure list functions.
-/

namespace ModelManager

/-- The value object held by one LoRA slot widget
(`createLoraWidget`, modelManager.js line 606:
`{ on: true, lora: "None", strength: 1.0, strengthTwo: null }`).
`strengthTwo = none` models JS `null`/absent. -/
structure SlotValue where
  «on» : Bool
  lora : String
  strength : ℚ
  strengthTwo : Option ℚ
deriving DecidableEq

/-- Which strength channel an interaction addresses: the `strength` field
(primary / model strength) or the `strengthTwo` field (secondary / clip
strength, dual mode). -/
inductive StrengthKey
  | strength
  | strengthTwo
deriving DecidableEq

/-- `Math.max(-20, Math.min(20, v))` — the clamp used by the drag handler
(line 713) and the inline overlay commit (line 582). -/
def clampQ (v : ℚ) : ℚ := max (-20) (min 20 v)

/-- `Math.round(x * 100) / 100` — round to 2 decimals as done after every
arrow click and drag update.  JS `Math.round` is `⌊x + 1/2⌋`. -/
def round2 (q : ℚ) : ℚ := (⌊q * 100 + 1/2⌋ : ℚ) / 100

/-- Store a value into the addressed strength field, as the JS computed
member assignment `{ ...value, [key]: n }` does (storing into
`strengthTwo` always makes it present). -/
def setKey : StrengthKey → ℚ → SlotValue → SlotValue
  | .strength, q, v => { v with strength := q }
  | .strengthTwo, q, v => { v with strengthTwo := some q }

/-- The starting value a drag session or secondary-channel op reads for a
key: `value.strength`, or `value.strengthTwo ?? value.strength` for the
secondary channel (lines 699 and 701). -/
def keyStart : StrengthKey → SlotValue → ℚ
  | .strength, v => v.strength
  | .strengthTwo, v => v.strengthTwo.getD v.strength

/-- Left-arrow click on strength column 1 (lines 755–759):
`s = Math.max(-20, strength - 0.05); strength := Math.round(s*100)/100`. -/
def arrowLeftClick (v : SlotValue) : SlotValue :=
  { v with strength := round2 (max (-20) (v.strength - 0.05)) }

/-- Right-arrow click on strength column 1 (lines 771–775):
`s = Math.min(20, strength + 0.05); strength := Math.round(s*100)/100`. -/
def arrowRightClick (v : SlotValue) : SlotValue :=
  { v with strength := round2 (min 20 (v.strength + 0.05)) }

/-- Left-arrow click on strength column 2 (lines 780–784):
`s2 = (strengthTwo ?? strength) - 0.05; strengthTwo := Math.round(Math.max(-20, s2)*100)/100`. -/
def arrowLeft2Click (v : SlotValue) : SlotValue :=
  { v with strengthTwo := some (round2 (max (-20) (keyStart .strengthTwo v - 0.05))) }

/-- Right-arrow click on strength column 2 (lines 796–800):
`s2 = (strengthTwo ?? strength) + 0.05; strengthTwo := Math.round(Math.min(20, s2)*100)/100`. -/
def arrowRight2Click (v : SlotValue) : SlotValue :=
  { v with strengthTwo := some (round2 (min 20 (keyStart .strengthTwo v + 0.05))) }

/-- The secondary strength as rendered by `w.draw` (line 669):
`const s2 = v.strengthTwo ?? v.strength`. -/
def drawnStrengthTwo (v : SlotValue) : ℚ := v.strengthTwo.getD v.strength

/-- Commit of the inline numeric overlay (`showStrengthInput.apply`,
lines 579–586): `parseFloat` failure (`none`) leaves the value unchanged,
otherwise the parsed number is clamped to `[-20, 20]` and stored. -/
def overlayCommitValue (key : StrengthKey) (parsed : Option ℚ) (v : SlotValue) : SlotValue :=
  match parsed with
  | none => v
  | some q => setKey key (clampQ q) v

/-! ## Zone layout (`loraZones`, lines 434–486) -/

/-- A horizontal hit-test zone: left edge `x` and width `w`. -/
structure Zone where
  x : ℚ
  w : ℚ
deriving DecidableEq

/-- The named zones returned by `loraZones`.  The column-2 zones exist only
in dual mode; they are `none` in single mode, matching the absent object
fields in the JS return value. -/
structure ZoneMap where
  toggle : Zone
  name : Zone
  arrowLeft : Zone
  strengthNum : Zone
  arrowRight : Zone
  arrowLeft2 : Option Zone
  strengthNum2 : Option Zone
  arrowRight2 : Option Zone
deriving DecidableEq

def MARGIN : ℚ := 15
def SWITCH_W : ℚ := 22
def SWITCH_PAD : ℚ := 4
def ARROW_W : ℚ := 14
def STRENGTH_NUM_W : ℚ := 36

/-- `loraZones(width, dual)` (lines 442–486), translated verbatim. -/
def loraZones (width : ℚ) (dual : Bool) : ZoneMap :=
  let switchX := MARGIN + SWITCH_PAD
  let nameX := switchX + SWITCH_W + 8
  if dual then
    let col2End := width - MARGIN
    let col2ArrowRight := col2End - ARROW_W
    let col2Num := col2ArrowRight - STRENGTH_NUM_W
    let col2ArrowLeft := col2Num - ARROW_W
    let col1End := col2ArrowLeft - 2
    let col1ArrowRight := col1End - ARROW_W
    let col1Num := col1ArrowRight - STRENGTH_NUM_W
    let col1ArrowLeft := col1Num - ARROW_W
    let nameEnd := col1ArrowLeft - 4
    { toggle := ⟨MARGIN, nameX - MARGIN⟩
      name := ⟨nameX, nameEnd - nameX⟩
      arrowLeft := ⟨col1ArrowLeft, ARROW_W⟩
      strengthNum := ⟨col1Num, STRENGTH_NUM_W⟩
      arrowRight := ⟨col1ArrowRight, ARROW_W⟩
      arrowLeft2 := some ⟨col2ArrowLeft, ARROW_W⟩
      strengthNum2 := some ⟨col2Num, STRENGTH_NUM_W⟩
      arrowRight2 := some ⟨col2ArrowRight, ARROW_W⟩ }
  else
    let arrowRightEnd := width - MARGIN
    let arrowRightX := arrowRightEnd - ARROW_W
    let numEnd := arrowRightX
    let numX := numEnd - STRENGTH_NUM_W
    let arrowLeftEnd := numX
    let arrowLeftX := arrowLeftEnd - ARROW_W
    let nameEnd := arrowLeftX - 4
    { toggle := ⟨MARGIN, nameX - MARGIN⟩
      name := ⟨nameX, nameEnd - nameX⟩
      arrowLeft := ⟨arrowLeftX, ARROW_W⟩
      strengthNum := ⟨numX, STRENGTH_NUM_W⟩
      arrowRight := ⟨arrowRightX, ARROW_W⟩
      arrowLeft2 := none
      strengthNum2 := none
      arrowRight2 := none }

/-- The hit test `x >= z.x && x < z.x + z.w` used throughout `w.mouse`. -/
def inZone (x : ℚ) (z : Zone) : Bool := decide (z.x ≤ x ∧ x < z.x + z.w)

/-- Hit test against an optional (dual-only) zone; an absent zone is never hit,
matching the JS truthiness guards like `dual && z.strengthNum2 && x >= ...`. -/
def inOpt (x : ℚ) : Option Zone → Bool
  | some z => inZone x z
  | none => false

/-! ## The pointer state machine of one slot widget (`w.mouse`, lines 689–807) -/

/-- The widget's `_dragState` object `{ key, startX, startVal, _dragged }`. -/
structure DragState where
  key : StrengthKey
  startX : ℚ
  startVal : ℚ
  dragged : Bool
deriving DecidableEq

/-- The mutable per-widget state read and written by `w.mouse`:
the slot value, `_dragState` (`none` = JS `null`), and the two double-click
timestamps `_lastStrengthClick` / `_lastStrengthClick2` (milliseconds). -/
structure WidgetState where
  value : SlotValue
  drag : Option DragState
  lastStrengthClick : ℕ
  lastStrengthClick2 : ℕ
deriving DecidableEq

/-- Pointer events delivered to `w.mouse`.  `x` is the widget-local
`pos[0]` used for hit testing; `cx` is `event.canvasX ?? event.clientX`
used for drag displacement; `now` is `Date.now()` at a release. -/
inductive WEvent
  | down (x cx : ℚ)
  | move (cx : ℚ)
  | up (x : ℚ) (now : ℕ)
  | dbl (x : ℚ)
deriving DecidableEq

/-- Result of one `w.mouse` call: the updated widget state, the boolean the
handler returns, and the reified DOM side effects — `overlay` is `some key`
when `showStrengthInput` was invoked for that channel, `dropdown` is true
when `showLoraDropdown` was invoked. -/
structure MouseOut where
  st : WidgetState
  handled : Bool
  overlay : Option StrengthKey
  dropdown : Bool
deriving DecidableEq

/-- The release/click branch chain of `w.mouse` (lines 747–806), entered on a
non-dragged `pointerup` after `_dragState` was cleared. -/
def clickChain (dual : Bool) (z : ZoneMap) (x : ℚ) (now : ℕ) (s : WidgetState) : MouseOut :=
  if x < z.toggle.x + z.toggle.w then
    ⟨{ s with value := { s.value with «on» := !s.value.«on» } }, true, none, false⟩
  else if inZone x z.arrowLeft then
    ⟨{ s with value := arrowLeftClick s.value }, true, none, false⟩
  else if inZone x z.strengthNum then
    if now - s.lastStrengthClick < 500 then
      ⟨{ s with lastStrengthClick := 0 }, true, some .strength, false⟩
    else
      ⟨{ s with lastStrengthClick := now }, true, none, false⟩
  else if inZone x z.arrowRight then
    ⟨{ s with value := arrowRightClick s.value }, true, none, false⟩
  else if dual && inOpt x z.arrowLeft2 then
    ⟨{ s with value := arrowLeft2Click s.value }, true, none, false⟩
  else if dual && inOpt x z.strengthNum2 then
    if now - s.lastStrengthClick2 < 500 then
      ⟨{ s with lastStrengthClick2 := 0 }, true, some .strengthTwo, false⟩
    else
      ⟨{ s with lastStrengthClick2 := now }, true, none, false⟩
  else if dual && inOpt x z.arrowRight2 then
    ⟨{ s with value := arrowRight2Click s.value }, true, none, false⟩
  else
    ⟨s, true, none, true⟩

/-- `w.mouse` (lines 689–807) as a pure transition function. -/
def widgetMouse (dual : Bool) (width : ℚ) (s : WidgetState) (e : WEvent) : MouseOut :=
  let z := loraZones width dual
  match e with
  | .down x cx =>
      if inZone x z.strengthNum then
        ⟨{ s with drag := some ⟨.strength, cx, s.value.strength, false⟩ }, true, none, false⟩
      else if dual && inOpt x z.strengthNum2 then
        ⟨{ s with drag := some ⟨.strengthTwo, cx, keyStart .strengthTwo s.value, false⟩ },
          true, none, false⟩
      else
        ⟨{ s with drag := none }, true, none, false⟩
  | .move cx =>
      match s.drag with
      | some d =>
          let dx := cx - d.startX
          if 2 < |dx| then
            ⟨{ s with
                value := setKey d.key (round2 (clampQ (d.startVal + dx * 0.01))) s.value
                drag := some { d with dragged := true } }, true, none, false⟩
          else
            ⟨s, true, none, false⟩
      | none => ⟨s, false, none, false⟩
  | .up x now =>
      match s.drag with
      | some d =>
          if d.dragged then ⟨{ s with drag := none }, true, none, false⟩
          else clickChain dual z x now { s with drag := none }
      | none => clickChain dual z x now s
  | .dbl x =>
      let s2 := { s with drag := none }
      if inZone x z.strengthNum then ⟨s2, true, some .strength, false⟩
      else if dual && inOpt x z.strengthNum2 then ⟨s2, true, some .strengthTwo, false⟩
      else ⟨s2, false, none, false⟩

/-- Run a sequence of pointer events through `widgetMouse`, collecting every
inline-overlay opening. -/
def runMouse (dual : Bool) (width : ℚ) : WidgetState → List WEvent → WidgetState × List StrengthKey
  | s, [] => (s, [])
  | s, e :: es =>
      let o := widgetMouse dual width s e
      let r := runMouse dual width o.st es
      (r.1, o.overlay.toList ++ r.2)

/-! ## Abstract interactions on a single slot value (for the clamp invariant) -/

/-- One user interaction that can change a strength value:
the four arrow clicks, a drag session on one of the two strength-number
zones (given as the list of pointer displacements seen during the session),
or an inline-overlay commit. -/
inductive Interaction
  | arrowLeft
  | arrowRight
  | arrowLeft2
  | arrowRight2
  | dragSession (key : StrengthKey) (dxs : List ℚ)
  | overlayCommit (key : StrengthKey) (parsed : Option ℚ)

/-- One `pointermove` of a drag session (lines 710–716): displacements at
most the 2-pixel threshold change nothing; larger ones store
`Math.round(Math.max(-20, Math.min(20, startVal + dx*0.01))*100)/100`. -/
def dragSessionStep (key : StrengthKey) (startVal : ℚ) (v : SlotValue) (dx : ℚ) : SlotValue :=
  if 2 < |dx| then setKey key (round2 (clampQ (startVal + dx * 0.01))) v else v

/-- Apply one interaction to a slot value.  A drag session reads its start
value once at the press (`startVal` in `_dragState`) and then applies each
move. -/
def applyInteraction (v : SlotValue) : Interaction → SlotValue
  | .arrowLeft => arrowLeftClick v
  | .arrowRight => arrowRightClick v
  | .arrowLeft2 => arrowLeft2Click v
  | .arrowRight2 => arrowRight2Click v
  | .dragSession key dxs => dxs.foldl (dragSessionStep key (keyStart key v)) v
  | .overlayCommit key parsed => overlayCommitValue key parsed v

/-- `-20 ≤ q ≤ 20`. -/
def InRange (q : ℚ) : Prop := -20 ≤ q ∧ q ≤ 20

/-- Both strength channels of a slot are within `[-20, 20]` (the secondary
one only when present). -/
def SlotInRange (v : SlotValue) : Prop :=
  InRange v.strength ∧ ∀ s, v.strengthTwo = some s → InRange s

/-! ## Mode migration (`node.onPropertyChanged`, lines 981–1000) -/

/-- `Single → Dual` per-slot rewrite (lines 987–991): if `strengthTwo == null`
set it to `strength`, otherwise leave the slot alone. -/
def toDualSlot (v : SlotValue) : SlotValue :=
  match v.strengthTwo with
  | none => { v with strengthTwo := some v.strength }
  | some _ => v

/-- `Dual → Single` per-slot rewrite (lines 993–996): clear `strengthTwo`. -/
def toSingleSlot (v : SlotValue) : SlotValue := { v with strengthTwo := none }

/-- The `showStrengths` branch of `node.onPropertyChanged` applied to the
slot list: value `"Model & Clip"` switches to dual, any other value to
single. -/
def onShowStrengthsChanged (value : String) (vs : List SlotValue) : List SlotValue :=
  if value = "Model & Clip" then vs.map toDualSlot else vs.map toSingleSlot

/-- `node.onPropertyChanged(name, value)` restricted to its effect on the
slot values: only the `showStrengths` property triggers a rewrite. -/
def onPropertyChanged (nm value : String) (vs : List SlotValue) : List SlotValue :=
  if nm = "showStrengths" then onShowStrengthsChanged value vs else vs

/-! ## Persistence (`w.serializeValue` lines 809–815, `node.configure` lines 1004–1056) -/

/-- One serialized slot record.  Each field is optional because the restore
path must tolerate records with missing keys; `serializeValue` itself always
emits `on`, `lora` and `strength`. -/
structure SavedSlot where
  «on» : Option Bool
  lora : Option String
  strength : Option ℚ
  strengthTwo : Option ℚ
deriving DecidableEq

/-- One entry of a node's saved `widgets_values`: a record, a bare string
(degraded/API shape), or anything else (other widgets' values). -/
inductive SavedVal
  | obj (sv : SavedSlot)
  | str (s : String)
  | other
deriving DecidableEq

/-- `w.serializeValue` (lines 809–815): a copy of the value object with
`strengthTwo` deleted unless the node is in dual mode. -/
def serializeValue (dual : Bool) (v : SlotValue) : SavedSlot :=
  { «on» := some v.«on»
    lora := some v.lora
    strength := some v.strength
    strengthTwo := if dual then v.strengthTwo else none }

/-- The slot value rebuilt from one saved record by `node.configure`
(lines 1039–1044): `on: sv.on !== false`, `lora: sv.lora || "None"`,
`strength: typeof sv.strength === "number" ? sv.strength : 1.0`,
`strengthTwo: sv.strengthTwo ?? null`. -/
def restoreSlot (sv : SavedSlot) : SlotValue :=
  { «on» := sv.«on» != some false
    lora := match sv.lora with
            | some s => if s = "" then "None" else s
            | none => "None"
    strength := sv.strength.getD 1
    strengthTwo := sv.strengthTwo }

/-- The filter predicate of line 1031:
`v && typeof v === "object" && "lora" in v`. -/
def isSlotShaped : SavedVal → Bool
  | .obj sv => sv.lora.isSome
  | _ => false

/-- The record-shaped entries of the saved values, in order (line 1030). -/
def slotShapedRecords (saved : List SavedVal) : List SavedSlot :=
  saved.filterMap fun v =>
    match v with
    | .obj sv => if sv.lora.isSome then some sv else none
    | _ => none

/-- The default slot value created by `setupLoraNode` for a fresh node
(line 972): `{ on: true, lora: "None", strength: 1.0, strengthTwo: null }`. -/
def setupDefaultSlot : SlotValue :=
  { «on» := true, lora := "None", strength := 1, strengthTwo := none }

/-- The slot list rebuilt by `node.configure` from saved widget values
(lines 1029–1048): one restored slot per record-shaped entry, or the single
default slot of line 1047 when there are none. -/
def configureSlots (saved : List SavedVal) : List SlotValue :=
  let loraSlotValues := slotShapedRecords saved
  if loraSlotValues.isEmpty then
    [{ «on» := true, lora := "None", strength := 1, strengthTwo := none }]
  else
    loraSlotValues.map restoreSlot

/-! ## Degraded/API-JSON upgrade pass (`onNodeCreated`, lines 1176–1197) -/

/-- A live slot-widget value shortly after node creation: either the proper
record, or a bare selector string left by the API-JSON load path. -/
inductive WValue
  | str (s : String)
  | record (v : SlotValue)
deriving DecidableEq

/-- The record a bare string value is upgraded to (lines 1187–1193):
`{ on: name !== "None", lora: name, strength: 1.0,
   strengthTwo: isDualMode(node) ? 1.0 : null }`. -/
def upgradeApiSlot (dual : Bool) (s : String) : SlotValue :=
  { «on» := s != "None"
    lora := s
    strength := 1
    strengthTwo := if dual then some 1 else none }

/-- The upgrade pass over the slot widgets: every bare-string value is
replaced by a full record, record values are untouched. -/
def upgradePass (dual : Bool) (ws : List WValue) : List WValue :=
  ws.map fun w =>
    match w with
    | .str s => .record (upgradeApiSlot dual s)
    | .record v => .record v

/-! ## Toggle-all widget (`createToggleAllWidget`, lines 820–877) -/

/-- The three visual states of the aggregate switch: fully on, the
partially-on third state, or off. -/
inductive ToggleVisual
  | allOn
  | mixed
  | allOff
deriving DecidableEq

/-- `allOn = loraW.length > 0 && loraW.every(lw => lw.value.on !== false)`
(lines 833 and 867). -/
def allOnB (vs : List SlotValue) : Bool := !vs.isEmpty && vs.all (·.«on»)

/-- The derived visual state drawn by the toggle-all widget (line 842):
`drawSwitch(ctx, x, y, allOn, !allOn && someOn)` with
`someOn = loraW.some(lw => lw.value.on !== false)`. -/
def toggleAllState (vs : List SlotValue) : ToggleVisual :=
  let allOn := allOnB vs
  let someOn := vs.any (·.«on»)
  if allOn then .allOn else if !allOn && someOn then .mixed else .allOff

/-- A click on the toggle-all widget (lines 866–871): every slot's `on`
becomes `!allOn`. -/
def toggleAllClick (vs : List SlotValue) : List SlotValue :=
  let newState := !allOnB vs
  vs.map fun v => { v with «on» := newState }

/-! ## Slot list structure (`addLoraSlot`, `renumberLoraWidgets`, extra menu
options; lines 900–934 and 1087–1124) -/

/-- One slot widget as far as list structure is concerned: its numeric
display suffix (`lora_k` is modelled by `k`) and its value. -/
structure LoraWidget where
  nameIdx : ℕ
  value : SlotValue
deriving DecidableEq

/-- `renumberLoraWidgets` (lines 929–934): assign `lora_${i+1}` in display
order, here starting from `k`. -/
def renumberFrom (k : ℕ) : List LoraWidget → List LoraWidget
  | [] => []
  | w :: ws => { w with nameIdx := k } :: renumberFrom (k + 1) ws

def renumberLoraWidgets (ws : List LoraWidget) : List LoraWidget :=
  renumberFrom 1 ws

/-- `addLoraSlot` (lines 900–920): a new widget named `lora_${N+1}` with the
fresh record of lines 904–909, spliced in directly before the Add button —
i.e. after every existing slot widget. -/
def addLoraSlot (dual : Bool) (loraName : String) (ws : List LoraWidget) : List LoraWidget :=
  ws ++ [{ nameIdx := ws.length + 1
           value := { «on» := loraName != "None"
                      lora := loraName
                      strength := 1
                      strengthTwo := if dual then some 1 else none } }]

/-- Swap the widgets at positions `i` and `i+1`. -/
def swapAdjacent : ℕ → List LoraWidget → List LoraWidget
  | 0, a :: b :: ws => b :: a :: ws
  | n + 1, a :: ws => a :: swapAdjacent n ws
  | _, ws => ws

/-- "Remove LoRA" (lines 1115–1124): delete the slot at `i`, then renumber.
The context menu only offers it for a hit slot, so out-of-range indices do
nothing. -/
def removeLora (i : ℕ) (ws : List LoraWidget) : List LoraWidget :=
  if i < ws.length then renumberLoraWidgets (ws.eraseIdx i) else ws

/-- "Move LoRA Up" (lines 1087–1099): offered only for `0 < i`; swaps the
slot with its predecessor, then renumbers. -/
def moveUpLora (i : ℕ) (ws : List LoraWidget) : List LoraWidget :=
  if 0 < i ∧ i < ws.length then renumberLoraWidgets (swapAdjacent (i - 1) ws) else ws

/-- "Move LoRA Down" (lines 1101–1113): offered only for `i < N - 1`; swaps
the slot with its successor, then renumbers. -/
def moveDownLora (i : ℕ) (ws : List LoraWidget) : List LoraWidget :=
  if i + 1 < ws.length then renumberLoraWidgets (swapAdjacent i ws) else ws

/-- One structural edit of the slot list. -/
inductive SlotOp
  | add (dual : Bool) (loraName : String)
  | remove (i : ℕ)
  | moveUp (i : ℕ)
  | moveDown (i : ℕ)

def applySlotOp (ws : List LoraWidget) : SlotOp → List LoraWidget
  | .add dual loraName => addLoraSlot dual loraName ws
  | .remove i => removeLora i ws
  | .moveUp i => moveUpLora i ws
  | .moveDown i => moveDownLora i ws

/-- The slot widgets of a freshly created node (`setupLoraNode` line 972):
exactly one default slot named `lora_1`. -/
def freshLoraWidgets : List LoraWidget := [{ nameIdx := 1, value := setupDefaultSlot }]

/-- Number a list of restored slot values `lora_1 .. lora_N` in order, as
the `configure` loop `createLoraWidget(node, i + 1, ...)` does. -/
def numberSlots (k : ℕ) : List SlotValue → List LoraWidget
  | [] => []
  | v :: vs => { nameIdx := k, value := v } :: numberSlots (k + 1) vs

/-- The slot widgets rebuilt by `node.configure` (lines 1036–1047). -/
def configureWidgets (saved : List SavedVal) : List LoraWidget :=
  numberSlots 1 (configureSlots saved)

/-- The renumbering invariant: the display names are exactly
`lora_1 .. lora_N` in display order. -/
def NamesSequential (ws : List LoraWidget) : Prop :=
  ws.map LoraWidget.nameIdx = List.range' 1 ws.length

/-! ## Range lemmas -/

theorem clampQ_mem (q : ℚ) : InRange (clampQ q) := by
  unfold clampQ InRange
  exact ⟨le_max_left _ _, max_le (by norm_num) (min_le_left _ _)⟩

theorem round2_mem (q : ℚ) (h : InRange q) : InRange (round2 q) := by
  obtain ⟨h1, h2⟩ := h
  have hl : (-2000 : ℤ) ≤ ⌊q * 100 + 1/2⌋ := by
    rw [Int.le_floor]
    push_cast
    linarith
  have hu : ⌊q * 100 + 1/2⌋ ≤ 2000 := by
    have hlt : ⌊q * 100 + 1/2⌋ < 2001 := by
      rw [Int.floor_lt]
      push_cast
      linarith
    omega
  unfold round2 InRange
  constructor
  · rw [le_div_iff₀ (by norm_num : (0:ℚ) < 100)]
    have hc : ((-2000 : ℤ) : ℚ) ≤ (⌊q * 100 + 1/2⌋ : ℚ) := by exact_mod_cast hl
    push_cast at hc ⊢
    linarith
  · rw [div_le_iff₀ (by norm_num : (0:ℚ) < 100)]
    have hc : ((⌊q * 100 + 1/2⌋ : ℤ) : ℚ) ≤ ((2000 : ℤ) : ℚ) := by exact_mod_cast hu
    push_cast at hc ⊢
    linarith

theorem setKey_inRange (k : StrengthKey) (r : ℚ) (v : SlotValue)
    (hr : InRange r) (hv : SlotInRange v) : SlotInRange (setKey k r v) := by
  cases k with
  | strength => exact ⟨hr, hv.2⟩
  | strengthTwo =>
    refine ⟨hv.1, fun s hs => ?_⟩
    simp only [setKey, Option.some.injEq] at hs
    exact hs ▸ hr

theorem keyStart_mem (k : StrengthKey) (v : SlotValue) (hv : SlotInRange v) :
    InRange (keyStart k v) := by
  cases k with
  | strength => exact hv.1
  | strengthTwo =>
    cases h : v.strengthTwo with
    | none => simpa [keyStart, h] using hv.1
    | some s => simpa [keyStart, h] using hv.2 s h

theorem arrowLeftClick_inRange (v : SlotValue) (hv : SlotInRange v) :
    SlotInRange (arrowLeftClick v) := by
  have h20 : v.strength - 0.05 ≤ 20 := by have := hv.1.2; linarith
  exact ⟨round2_mem _ ⟨le_max_left _ _, max_le (by norm_num) h20⟩, hv.2⟩

theorem arrowRightClick_inRange (v : SlotValue) (hv : SlotInRange v) :
    SlotInRange (arrowRightClick v) := by
  have h20 : -20 ≤ v.strength + 0.05 := by have := hv.1.1; linarith
  exact ⟨round2_mem _ ⟨le_min (by norm_num) h20, min_le_left _ _⟩, hv.2⟩

theorem arrowLeft2Click_inRange (v : SlotValue) (hv : SlotInRange v) :
    SlotInRange (arrowLeft2Click v) := by
  have hk := keyStart_mem .strengthTwo v hv
  have hr : InRange (round2 (max (-20) (keyStart .strengthTwo v - 0.05))) :=
    round2_mem _ ⟨le_max_left _ _, max_le (by norm_num) (by have := hk.2; linarith)⟩
  refine ⟨hv.1, fun s hs => ?_⟩
  simp only [arrowLeft2Click, Option.some.injEq] at hs
  exact hs ▸ hr

theorem arrowRight2Click_inRange (v : SlotValue) (hv : SlotInRange v) :
    SlotInRange (arrowRight2Click v) := by
  have hk := keyStart_mem .strengthTwo v hv
  have hr : InRange (round2 (min 20 (keyStart .strengthTwo v + 0.05))) :=
    round2_mem _ ⟨le_min (by norm_num) (by have := hk.1; linarith), min_le_left _ _⟩
  refine ⟨hv.1, fun s hs => ?_⟩
  simp only [arrowRight2Click, Option.some.injEq] at hs
  exact hs ▸ hr

theorem dragSessionStep_inRange (key : StrengthKey) (sv : ℚ) (v : SlotValue) (dx : ℚ)
    (hv : SlotInRange v) : SlotInRange (dragSessionStep key sv v dx) := by
  unfold dragSessionStep
  split
  · exact setKey_inRange _ _ _ (round2_mem _ (clampQ_mem _)) hv
  · exact hv

theorem dragFold_inRange (key : StrengthKey) (sv : ℚ) (dxs : List ℚ) (v : SlotValue)
    (hv : SlotInRange v) : SlotInRange (dxs.foldl (dragSessionStep key sv) v) := by
  induction dxs generalizing v with
  | nil => exact hv
  | cons d ds ih => exact ih _ (dragSessionStep_inRange key sv v d hv)

theorem applyInteraction_inRange (v : SlotValue) (hv : SlotInRange v) (op : Interaction) :
    SlotInRange (applyInteraction v op) := by
  cases op with
  | arrowLeft => exact arrowLeftClick_inRange v hv
  | arrowRight => exact arrowRightClick_inRange v hv
  | arrowLeft2 => exact arrowLeft2Click_inRange v hv
  | arrowRight2 => exact arrowRight2Click_inRange v hv
  | dragSession key dxs => exact dragFold_inRange key _ dxs v hv
  | overlayCommit key parsed =>
    cases parsed with
    | none => exact hv
    | some q => exact setKey_inRange _ _ _ (clampQ_mem q) hv

/-- **C1**: for every slot whose strengths start in `[-20, 20]` and every
finite sequence of interactions (arrow clicks on either channel, drag
sessions, inline-overlay commits), `strength` and — when present —
`strengthTwo` stay in `[-20, 20]`; moreover an out-of-range overlay input is
never rejected: any parsed number is stored clamped to `[-20, 20]`. -/
theorem C1_clamp_invariant (v : SlotValue) (hv : SlotInRange v) (ops : List Interaction) :
    SlotInRange (ops.foldl applyInteraction v) ∧
    (∀ w : SlotValue, ∀ key : StrengthKey, ∀ q : ℚ,
      applyInteraction w (.overlayCommit key (some q)) = setKey key (clampQ q) w ∧
      InRange (clampQ q)) := by
  constructor
  · induction ops generalizing v with
    | nil => exact hv
    | cons op rest ih => exact ih _ (applyInteraction_inRange v hv op)
  · exact fun w key q => ⟨rfl, clampQ_mem q⟩

/-- Witness for C1 at a concrete slot and interaction sequence. -/
theorem C1_clamp_invariant_witness :
    SlotInRange setupDefaultSlot ∧
    SlotInRange
      (([Interaction.arrowRight, .dragSession .strength [300], .arrowLeft2,
         .overlayCommit .strengthTwo (some 1000)]).foldl applyInteraction setupDefaultSlot) := by
  have h0 : SlotInRange setupDefaultSlot := by
    refine ⟨by norm_num [setupDefaultSlot, InRange], fun s hs => ?_⟩
    simp [setupDefaultSlot] at hs
  exact ⟨h0, (C1_clamp_invariant setupDefaultSlot h0 _).1⟩

/-! ## Mode migration, persistence, toggle-all -/

theorem getD_map_of_lt {α β : Type} (f : α → β) (l : List α) (i : ℕ) (h : i < l.length)
    (d : β) (d0 : α) : (l.map f).getD i d = f (l.getD i d0) := by
  rw [List.getD_eq_getElem _ _ (by simpa using h), List.getD_eq_getElem _ _ h]
  simp

/-- **C3**: on a `showStrengths` change, switching to `"Model & Clip"` maps
every slot through `toDualSlot` (absent `strengthTwo` becomes the current
`strength`; a present value — and in fact the whole slot — is untouched),
and switching to `"Single"` maps every slot through `toSingleSlot`
(`strengthTwo` cleared); both directions preserve `strength`, `on`
(enabled) and `lora` (selection) of every slot. -/
theorem C3_mode_migration (vs : List SlotValue) :
    onPropertyChanged "showStrengths" "Model & Clip" vs = vs.map toDualSlot ∧
    onPropertyChanged "showStrengths" "Single" vs = vs.map toSingleSlot ∧
    (∀ v : SlotValue,
      (v.strengthTwo = none → (toDualSlot v).strengthTwo = some v.strength) ∧
      (∀ s, v.strengthTwo = some s → toDualSlot v = v) ∧
      (toDualSlot v).strength = v.strength ∧
      (toDualSlot v).«on» = v.«on» ∧
      (toDualSlot v).lora = v.lora) ∧
    (∀ v : SlotValue,
      (toSingleSlot v).strengthTwo = none ∧
      (toSingleSlot v).strength = v.strength ∧
      (toSingleSlot v).«on» = v.«on» ∧
      (toSingleSlot v).lora = v.lora) := by
  refine ⟨rfl, rfl, fun v => ?_, fun v => ⟨rfl, rfl, rfl, rfl⟩⟩
  cases h : v.strengthTwo with
  | none => simp [toDualSlot, h]
  | some s => simp [toDualSlot, h]

/-- Witness for C3 at concrete slots. -/
theorem C3_mode_migration_witness :
    (toDualSlot { «on» := true, lora := "a", strength := 2, strengthTwo := none }).strengthTwo
        = some 2 ∧
    toDualSlot { «on» := false, lora := "b", strength := 3, strengthTwo := some 5 }
        = { «on» := false, lora := "b", strength := 3, strengthTwo := some 5 } :=
  ⟨((C3_mode_migration []).2.2.1 _).1 rfl, ((C3_mode_migration []).2.2.1 _).2.1 5 rfl⟩

theorem roundtrip_fields (v : SlotValue) :
    (toSingleSlot (toDualSlot v)).«on» = v.«on» ∧
    (toSingleSlot (toDualSlot v)).lora = v.lora ∧
    (toSingleSlot (toDualSlot v)).strength = v.strength := by
  cases h : v.strengthTwo <;> simp [toDualSlot, toSingleSlot, h]

/-- **C9**: applying `Single → Dual` then `Dual → Single` leaves every
slot's `on` (enabled), `lora` (selection) and `strength` (primary) equal to
their initial values. -/
theorem C9_mode_roundtrip (vs : List SlotValue) :
    (onPropertyChanged "showStrengths" "Single"
      (onPropertyChanged "showStrengths" "Model & Clip" vs)).length = vs.length ∧
    ∀ i, i < vs.length →
      ((onPropertyChanged "showStrengths" "Single"
          (onPropertyChanged "showStrengths" "Model & Clip" vs)).getD i setupDefaultSlot).«on»
        = (vs.getD i setupDefaultSlot).«on» ∧
      ((onPropertyChanged "showStrengths" "Single"
          (onPropertyChanged "showStrengths" "Model & Clip" vs)).getD i setupDefaultSlot).lora
        = (vs.getD i setupDefaultSlot).lora ∧
      ((onPropertyChanged "showStrengths" "Single"
          (onPropertyChanged "showStrengths" "Model & Clip" vs)).getD i setupDefaultSlot).strength
        = (vs.getD i setupDefaultSlot).strength := by
  have hrt : onPropertyChanged "showStrengths" "Single"
      (onPropertyChanged "showStrengths" "Model & Clip" vs)
      = vs.map (fun v => toSingleSlot (toDualSlot v)) := by
    show (vs.map toDualSlot).map toSingleSlot = _
    rw [List.map_map]
    rfl
  refine ⟨by rw [hrt]; simp, fun i hi => ?_⟩
  rw [hrt, getD_map_of_lt _ _ _ hi _ setupDefaultSlot]
  exact roundtrip_fields _

/-- Witness for C9 at a concrete two-slot list. -/
theorem C9_mode_roundtrip_witness :
    ((onPropertyChanged "showStrengths" "Single"
        (onPropertyChanged "showStrengths" "Model & Clip"
          [setupDefaultSlot, { «on» := false, lora := "x", strength := 2, strengthTwo := some 7 }]
          )).getD 1 setupDefaultSlot).strength = 2 :=
  ((C9_mode_roundtrip _).2 1 (by norm_num)).2.2

/-- **C4**: the API-JSON upgrade pass replaces every bare-string slot value
`s` by the full record `{ on: s !== "None", lora: s, strength: 1.0,
strengthTwo: dual ? 1.0 : null }`, leaves record values alone, and on the
concrete degraded input `["123:foo", "None"]` (the sentinel the spec calls
"none" is the literal `"None"` in this code) in single mode produces exactly
the two records of the spec's example. -/
theorem C4_degraded_upgrade (dual : Bool) (s : String) (r : SlotValue) (ws : List WValue) :
    (upgradeApiSlot dual s).lora = s ∧
    (upgradeApiSlot dual s).«on» = (s != "None") ∧
    (upgradeApiSlot dual s).strength = 1 ∧
    (upgradeApiSlot dual s).strengthTwo = (if dual then some 1 else none) ∧
    upgradePass dual (.str s :: ws) = .record (upgradeApiSlot dual s) :: upgradePass dual ws ∧
    upgradePass dual (.record r :: ws) = .record r :: upgradePass dual ws ∧
    upgradePass false [WValue.str "123:foo", WValue.str "None"] =
      [WValue.record { «on» := true, lora := "123:foo", strength := 1, strengthTwo := none },
       WValue.record { «on» := false, lora := "None", strength := 1, strengthTwo := none }] := by
  exact ⟨rfl, rfl, rfl, rfl, rfl, rfl, by decide⟩

/-- **C5**: `serializeValue` omits `strengthTwo` unless the node is in dual
mode, and saving the slot `{enabled: true, selection: "123:foo",
strengthPrimary: 0.8}` in single mode then restoring through `configure`
yields exactly one slot with those values and `strengthTwo` absent. -/
theorem C5_serialization_roundtrip (v : SlotValue) :
    (serializeValue false v).strengthTwo = none ∧
    (∀ d : Bool, (serializeValue d v).strengthTwo = if d then v.strengthTwo else none) ∧
    configureSlots [SavedVal.obj (serializeValue false
        { «on» := true, lora := "123:foo", strength := 0.8, strengthTwo := none })] =
      [{ «on» := true, lora := "123:foo", strength := 0.8, strengthTwo := none }] := by
  refine ⟨rfl, fun d => rfl, ?_⟩
  simp [configureSlots, slotShapedRecords, serializeValue, restoreSlot, List.filterMap]

/-- **C8**: restoring from saved widget values containing no slot-shaped
entry (no record with a `lora` field) produces exactly the one default slot,
equal to the fresh-node default of `setupLoraNode`. -/
theorem C8_empty_restore (saved : List SavedVal)
    (h : ∀ w ∈ saved, isSlotShaped w = false) :
    configureSlots saved = [setupDefaultSlot] := by
  have hrec : slotShapedRecords saved = [] := by
    rw [slotShapedRecords, List.filterMap_eq_nil_iff]
    intro a ha
    have := h a ha
    cases a <;> simp_all [isSlotShaped]
  simp [configureSlots, hrec, setupDefaultSlot]

/-- Witness for C8 on a concrete slotless saved-value list. -/
theorem C8_empty_restore_witness :
    (∀ w ∈ ([SavedVal.str "hello", SavedVal.other] : List SavedVal),
      isSlotShaped w = false) ∧
    configureSlots [SavedVal.str "hello", SavedVal.other] = [setupDefaultSlot] :=
  ⟨by decide, C8_empty_restore _ (by decide)⟩

/-- **C6**: the toggle-all state is derived — `allOn` iff the list is
non-empty and every slot is on, `mixed` iff at least one but not all are on,
`allOff` iff none are on (in particular when empty) — and a click sets every
slot's `on` to the negation of the aggregate all-on state; on the concrete
list `[on, off]` the state is `mixed`, one click turns both on, a second
click turns both off. -/
theorem C6_toggle_all (vs : List SlotValue) :
    (toggleAllState vs = .allOn ↔ vs ≠ [] ∧ ∀ v ∈ vs, v.«on» = true) ∧
    (toggleAllState vs = .mixed ↔
      ((∃ v ∈ vs, v.«on» = true) ∧ ¬ ∀ v ∈ vs, v.«on» = true)) ∧
    (toggleAllState vs = .allOff ↔ ∀ v ∈ vs, v.«on» = false) ∧
    (toggleAllClick vs).length = vs.length ∧
    (∀ i, i < vs.length →
      ((toggleAllClick vs).getD i setupDefaultSlot).«on» = !allOnB vs) ∧
    toggleAllState
      [{ setupDefaultSlot with «on» := true }, { setupDefaultSlot with «on» := false }]
      = .mixed ∧
    toggleAllClick
      [{ setupDefaultSlot with «on» := true }, { setupDefaultSlot with «on» := false }]
      = [{ setupDefaultSlot with «on» := true }, { setupDefaultSlot with «on» := true }] ∧
    toggleAllClick (toggleAllClick
      [{ setupDefaultSlot with «on» := true }, { setupDefaultSlot with «on» := false }])
      = [{ setupDefaultSlot with «on» := false }, { setupDefaultSlot with «on» := false }] := by
  have hAll : allOnB vs = true ↔ vs ≠ [] ∧ ∀ v ∈ vs, v.«on» = true := by
    simp [allOnB, List.all_eq_true, List.isEmpty_iff]
  have hSome : vs.any (fun v => v.«on») = true ↔ ∃ v ∈ vs, v.«on» = true := by
    simp [List.any_eq_true]
  refine ⟨?_, ?_, ?_, by simp [toggleAllClick], fun i hi => ?_, by decide, by decide, by decide⟩
  · cases hA : allOnB vs with
    | true => simpa [toggleAllState, hA] using hAll.mp hA
    | false =>
      simp only [toggleAllState, hA]
      constructor
      · intro hcon
        by_cases hS : vs.any (fun v => v.«on») = true <;> simp [hS] at hcon
      · intro hcon
        exact absurd (hAll.mpr hcon) (by simp [hA])
  · cases hA : allOnB vs with
    | true =>
      have hall := hAll.mp hA
      simp only [toggleAllState, hA]
      constructor
      · intro hcon
        simp at hcon
      · intro hcon
        exact absurd hall.2 hcon.2
    | false =>
      cases hS : vs.any (fun v => v.«on») with
      | true =>
        simp only [toggleAllState, hA, hS]
        refine iff_of_true rfl ⟨hSome.mp hS, fun hall => ?_⟩
        have hne : vs ≠ [] := by
          intro hcon
          rw [hcon] at hS
          simp at hS
        exact absurd (hAll.mpr ⟨hne, hall⟩) (by simp [hA])
      | false =>
        simp only [toggleAllState, hA, hS]
        refine iff_of_false (by simp) ?_
        intro hcon
        exact absurd (hSome.mpr hcon.1) (by simp [hS])
  · cases hA : allOnB vs with
    | true =>
      have hall := hAll.mp hA
      simp only [toggleAllState, hA]
      refine iff_of_false (by simp) ?_
      intro hcon
      rcases List.exists_mem_of_ne_nil vs hall.1 with ⟨v, hv⟩
      have := hcon v hv
      have := hall.2 v hv
      simp_all
    | false =>
      cases hS : vs.any (fun v => v.«on») with
      | true =>
        simp only [toggleAllState, hA, hS]
        refine iff_of_false (by simp) ?_
        intro hcon
        rcases hSome.mp hS with ⟨v, hv, hvon⟩
        have := hcon v hv
        simp_all
      | false =>
        simp only [toggleAllState, hA, hS]
        refine iff_of_true (by simp) ?_
        intro v hv
        by_contra hcon
        have : v.«on» = true := by
          cases hvv : v.«on» with
          | true => rfl
          | false => exact absurd hvv hcon
        exact absurd (hSome.mpr ⟨v, hv, this⟩) (by simp [hS])
  · rw [show toggleAllClick vs = vs.map (fun v => { v with «on» := !allOnB vs }) from rfl,
        getD_map_of_lt _ _ _ hi _ setupDefaultSlot]

/-- Witness for C6's quantified click conjunct at a concrete list. -/
theorem C6_toggle_all_witness :
    (0 : ℕ) < 2 ∧
    ((toggleAllClick
        [{ setupDefaultSlot with «on» := true }, { setupDefaultSlot with «on» := false }]
      ).getD 0 setupDefaultSlot).«on»
      = !allOnB
        [{ setupDefaultSlot with «on» := true }, { setupDefaultSlot with «on» := false }] :=
  ⟨by norm_num,
    (C6_toggle_all
      [{ setupDefaultSlot with «on» := true },
       { setupDefaultSlot with «on» := false }]).2.2.2.2.1 0 (by norm_num)⟩

/-! ## Renumbering invariant -/

theorem range'_succ_eq (s n : ℕ) : List.range' s (n + 1) = s :: List.range' (s + 1) n := rfl

theorem range'_concat_from (s n : ℕ) :
    List.range' s (n + 1) = List.range' s n ++ [s + n] := by
  induction n generalizing s with
  | zero => simp [range'_succ_eq]
  | succ m ih =>
    rw [range'_succ_eq s (m + 1), ih (s + 1), range'_succ_eq s m]
    have harith : s + 1 + m = s + (m + 1) := by omega
    rw [harith]
    simp

theorem renumberFrom_names (k : ℕ) (ws : List LoraWidget) :
    (renumberFrom k ws).map LoraWidget.nameIdx = List.range' k ws.length := by
  induction ws generalizing k with
  | nil => rfl
  | cons w t ih =>
    simp only [renumberFrom, List.map_cons, List.length_cons, ih]
    rfl

theorem renumberFrom_length (k : ℕ) (ws : List LoraWidget) :
    (renumberFrom k ws).length = ws.length := by
  induction ws generalizing k with
  | nil => rfl
  | cons w t ih => simp [renumberFrom, ih]

theorem numberSlots_names (k : ℕ) (vs : List SlotValue) :
    (numberSlots k vs).map LoraWidget.nameIdx = List.range' k vs.length := by
  induction vs generalizing k with
  | nil => rfl
  | cons v t ih =>
    simp only [numberSlots, List.map_cons, List.length_cons, ih]
    rfl

theorem numberSlots_length (k : ℕ) (vs : List SlotValue) :
    (numberSlots k vs).length = vs.length := by
  induction vs generalizing k with
  | nil => rfl
  | cons v t ih => simp [numberSlots, ih]

theorem namesSequential_renumber (ws : List LoraWidget) :
    NamesSequential (renumberLoraWidgets ws) := by
  unfold NamesSequential renumberLoraWidgets
  rw [renumberFrom_names, renumberFrom_length]

theorem namesSequential_add (dual : Bool) (ln : String) (ws : List LoraWidget)
    (h : NamesSequential ws) : NamesSequential (addLoraSlot dual ln ws) := by
  have hlen : (addLoraSlot dual ln ws).length = ws.length + 1 := by simp [addLoraSlot]
  have hmap : (addLoraSlot dual ln ws).map LoraWidget.nameIdx
      = ws.map LoraWidget.nameIdx ++ [ws.length + 1] := by
    simp [addLoraSlot]
  unfold NamesSequential at h ⊢
  rw [hmap, hlen, h, range'_concat_from 1 ws.length]
  simp [Nat.add_comm]

theorem namesSequential_applyOp (ws : List LoraWidget) (h : NamesSequential ws) (op : SlotOp) :
    NamesSequential (applySlotOp ws op) := by
  cases op with
  | add d ln => exact namesSequential_add d ln ws h
  | remove i =>
    show NamesSequential (removeLora i ws)
    unfold removeLora
    split
    · exact namesSequential_renumber _
    · exact h
  | moveUp i =>
    show NamesSequential (moveUpLora i ws)
    unfold moveUpLora
    split
    · exact namesSequential_renumber _
    · exact h
  | moveDown i =>
    show NamesSequential (moveDownLora i ws)
    unfold moveDownLora
    split
    · exact namesSequential_renumber _
    · exact h

/-- **C7**: the slot widgets of a freshly created node, and of any restored
node, carry names exactly `lora_1 .. lora_N` in display order; and this
invariant is preserved by every finite sequence of Add / Remove / MoveUp /
MoveDown operations. -/
theorem C7_renumbering :
    NamesSequential freshLoraWidgets ∧
    (∀ saved : List SavedVal, NamesSequential (configureWidgets saved)) ∧
    (∀ ws : List LoraWidget, NamesSequential ws →
      ∀ ops : List SlotOp, NamesSequential (ops.foldl applySlotOp ws)) := by
  refine ⟨rfl, fun saved => ?_, fun ws h ops => ?_⟩
  · unfold NamesSequential configureWidgets
    rw [numberSlots_names, numberSlots_length]
  · induction ops generalizing ws with
    | nil => exact h
    | cons op rest ih => exact ih _ (namesSequential_applyOp ws h op)

/-- Witness for C7 on a concrete operation sequence from a fresh node. -/
theorem C7_renumbering_witness :
    NamesSequential freshLoraWidgets ∧
    NamesSequential (([SlotOp.add false "A", SlotOp.add true "B", SlotOp.moveUp 1,
      SlotOp.remove 0, SlotOp.moveDown 0]).foldl applySlotOp freshLoraWidgets) :=
  ⟨rfl, C7_renumbering.2.2 freshLoraWidgets rfl _⟩

/-! ## Drag-session characterization for the pointer state machine -/

/-- The displacement of the last move event that exceeded the 2-pixel
threshold, if any: each such move overwrites the value computed from the
session's fixed start value, so the last one determines the final value. -/
def lastBig (c0 : ℚ) : List ℚ → Option ℚ
  | [] => none
  | c :: cs =>
    match lastBig c0 cs with
    | some dx => some dx
    | none => if 2 < |c - c0| then some (c - c0) else none

/-- The slot value at the end of a drag session whose last
above-threshold displacement is `o`. -/
def applyLastBig (key : StrengthKey) (sv : ℚ) (o : Option ℚ) (v : SlotValue) : SlotValue :=
  match o with
  | none => v
  | some dx => setKey key (round2 (clampQ (sv + dx * 0.01))) v

theorem setKey_setKey (k : StrengthKey) (a b : ℚ) (v : SlotValue) :
    setKey k a (setKey k b v) = setKey k a v := by
  cases k <;> rfl

theorem runMouse_cons (dual : Bool) (width : ℚ) (s : WidgetState) (e : WEvent)
    (es : List WEvent) :
    runMouse dual width s (e :: es)
      = ((runMouse dual width (widgetMouse dual width s e).st es).1,
        (widgetMouse dual width s e).overlay.toList
          ++ (runMouse dual width (widgetMouse dual width s e).st es).2) := rfl

theorem runMouse_append (dual : Bool) (width : ℚ) (s : WidgetState)
    (es1 es2 : List WEvent) :
    runMouse dual width s (es1 ++ es2)
      = ((runMouse dual width (runMouse dual width s es1).1 es2).1,
        (runMouse dual width s es1).2
          ++ (runMouse dual width (runMouse dual width s es1).1 es2).2) := by
  induction es1 generalizing s with
  | nil => simp [runMouse]
  | cons e t ih =>
    simp only [List.cons_append, runMouse_cons, ih, List.append_assoc]

theorem lastBig_isSome_iff (c0 : ℚ) (cs : List ℚ) :
    (lastBig c0 cs).isSome = true ↔ ∃ c ∈ cs, 2 < |c - c0| := by
  induction cs with
  | nil => simp [lastBig]
  | cons c t ih =>
    cases h : lastBig c0 t with
    | some dx =>
      rcases ih.mp (by simp [h]) with ⟨y, hy, hy2⟩
      simp only [lastBig, h]
      exact iff_of_true rfl ⟨y, by simp [hy], hy2⟩
    | none =>
      by_cases hc : 2 < |c - c0|
      · simp only [lastBig, h]
        rw [if_pos hc]
        exact iff_of_true rfl ⟨c, by simp, hc⟩
      · simp only [lastBig, h]
        rw [if_neg hc]
        constructor
        · intro hcon
          simp at hcon
        · rintro ⟨y, hy, hy2⟩
          rcases List.mem_cons.mp hy with rfl | hyt
          · exact absurd hy2 hc
          · exact absurd (ih.mpr ⟨y, hyt, hy2⟩) (by simp [h])

theorem lastBig_none_of_small (c0 : ℚ) (cs : List ℚ) (h : ∀ c ∈ cs, |c - c0| ≤ 2) :
    lastBig c0 cs = none ∧ cs.any (fun c => decide (2 < |c - c0|)) = false := by
  induction cs with
  | nil => exact ⟨rfl, rfl⟩
  | cons c t ih =>
    have hc : ¬ 2 < |c - c0| := not_lt.mpr (h c (by simp))
    have ht := ih (fun y hy => h y (by simp [hy]))
    constructor
    · simp only [lastBig, ht.1]
      rw [if_neg hc]
    · simp [ht.2, hc]

theorem lastBig_cons (c0 a : ℚ) (l : List ℚ) :
    lastBig c0 (a :: l)
      = match lastBig c0 l with
        | some dx => some dx
        | none => if 2 < |a - c0| then some (a - c0) else none := rfl

theorem lastBig_append_one (c0 c : ℚ) (l : List ℚ) :
    lastBig c0 (l ++ [c]) = if 2 < |c - c0| then some (c - c0) else lastBig c0 l := by
  induction l with
  | nil => simp [lastBig]
  | cons a t ih =>
    rw [List.cons_append, lastBig_cons, ih, lastBig_cons]
    by_cases hc : 2 < |c - c0| <;> simp [hc]

/-- Running only `pointermove` events from an armed drag session:
the value is determined by the last above-threshold displacement (computed
from the fixed `startVal`), the session stays armed with `dragged` set
whenever some move exceeded the threshold, the click timers never change,
and no overlay opens. -/
theorem runMouse_moveRun (dual : Bool) (width : ℚ) (v : SlotValue) (k : StrengthKey)
    (c0 sv : ℚ) (dr : Bool) (L L2 : ℕ) (cs : List ℚ) :
    runMouse dual width ⟨v, some ⟨k, c0, sv, dr⟩, L, L2⟩ (cs.map WEvent.move)
      = (⟨applyLastBig k sv (lastBig c0 cs) v,
          some ⟨k, c0, sv, dr || cs.any (fun c => decide (2 < |c - c0|))⟩, L, L2⟩, []) := by
  induction cs generalizing v dr with
  | nil => simp [runMouse, lastBig, applyLastBig]
  | cons c t ih =>
    by_cases hc : 2 < |c - c0|
    · have hstep : widgetMouse dual width ⟨v, some ⟨k, c0, sv, dr⟩, L, L2⟩ (WEvent.move c)
          = ⟨⟨setKey k (round2 (clampQ (sv + (c - c0) * 0.01))) v,
              some ⟨k, c0, sv, true⟩, L, L2⟩, true, none, false⟩ := by
        simp only [widgetMouse]
        rw [if_pos hc]
      rw [List.map_cons, runMouse_cons, hstep]
      simp only [Option.toList_none, List.nil_append]
      rw [ih]
      have hval : applyLastBig k sv (lastBig c0 t)
            (setKey k (round2 (clampQ (sv + (c - c0) * 0.01))) v)
          = applyLastBig k sv (lastBig c0 (c :: t)) v := by
        cases h : lastBig c0 t with
        | some dx =>
          simp only [applyLastBig, lastBig, h, setKey_setKey]
        | none =>
          simp only [applyLastBig, lastBig, h]
          rw [if_pos hc]
      rw [hval]
      have hflag : (true || t.any fun c => decide (2 < |c - c0|))
          = (dr || (c :: t).any fun x => decide (2 < |x - c0|)) := by
        simp [hc]
      rw [hflag]
    · have hstep : widgetMouse dual width ⟨v, some ⟨k, c0, sv, dr⟩, L, L2⟩ (WEvent.move c)
          = ⟨⟨v, some ⟨k, c0, sv, dr⟩, L, L2⟩, true, none, false⟩ := by
        simp only [widgetMouse]
        rw [if_neg hc]
      rw [List.map_cons, runMouse_cons, hstep]
      simp only [Option.toList_none, List.nil_append]
      rw [ih]
      have hlb : lastBig c0 (c :: t) = lastBig c0 t := by
        cases h : lastBig c0 t with
        | some dx => simp [lastBig, h]
        | none =>
          simp only [lastBig, h]
          rw [if_neg hc]
      have hflag : (dr || t.any fun c => decide (2 < |c - c0|))
          = (dr || (c :: t).any fun x => decide (2 < |x - c0|)) := by
        simp [hc]
      rw [hlb, hflag]

/-- At a point inside the strength-number zone, the click chain cannot have
been captured by the toggle zone or the left arrow (the zones are disjoint
for any width ≥ 180, which covers both modes). -/
theorem strengthNum_noEarlierZone (dual : Bool) (width x : ℚ) (hw : 180 ≤ width)
    (hx : inZone x (loraZones width dual).strengthNum = true) :
    ¬ (x < (loraZones width dual).toggle.x + (loraZones width dual).toggle.w) ∧
    inZone x (loraZones width dual).arrowLeft = false := by
  cases dual with
  | false =>
    simp only [loraZones, Bool.false_eq_true, if_false, inZone, MARGIN, SWITCH_W,
      SWITCH_PAD, ARROW_W, STRENGTH_NUM_W, decide_eq_true_eq] at hx
    obtain ⟨hx1, hx2⟩ := hx
    constructor
    · simp only [loraZones, Bool.false_eq_true, if_false, MARGIN, SWITCH_W, SWITCH_PAD]
      rw [not_lt]
      linarith
    · simp only [loraZones, Bool.false_eq_true, if_false, inZone, MARGIN, SWITCH_W,
        SWITCH_PAD, ARROW_W, STRENGTH_NUM_W]
      rw [decide_eq_false_iff_not]
      rintro ⟨h1, h2⟩
      linarith
  | true =>
    simp only [loraZones, if_true, inZone, MARGIN, SWITCH_W,
      SWITCH_PAD, ARROW_W, STRENGTH_NUM_W, decide_eq_true_eq] at hx
    obtain ⟨hx1, hx2⟩ := hx
    constructor
    · simp only [loraZones, if_true, MARGIN, SWITCH_W, SWITCH_PAD]
      rw [not_lt]
      linarith
    · simp only [loraZones, if_true, inZone, MARGIN, SWITCH_W,
        SWITCH_PAD, ARROW_W, STRENGTH_NUM_W]
      rw [decide_eq_false_iff_not]
      rintro ⟨h1, h2⟩
      linarith

/-- At a point inside the dual-mode secondary strength-number zone, none of
the earlier branches of the click chain (toggle, column-1 arrows and number,
column-2 left arrow) can capture the click, for any width ≥ 180. -/
theorem strengthNum2_noEarlierZone (width x : ℚ) (hw : 180 ≤ width)
    (hx : inOpt x (loraZones width true).strengthNum2 = true) :
    ¬ (x < (loraZones width true).toggle.x + (loraZones width true).toggle.w) ∧
    inZone x (loraZones width true).arrowLeft = false ∧
    inZone x (loraZones width true).strengthNum = false ∧
    inZone x (loraZones width true).arrowRight = false ∧
    inOpt x (loraZones width true).arrowLeft2 = false := by
  simp only [loraZones, if_true, inOpt, inZone, MARGIN, SWITCH_W, SWITCH_PAD, ARROW_W,
    STRENGTH_NUM_W, decide_eq_true_eq] at hx
  obtain ⟨hx1, hx2⟩ := hx
  refine ⟨?_, ?_, ?_, ?_, ?_⟩
  · simp only [loraZones, if_true, MARGIN, SWITCH_W, SWITCH_PAD]
    rw [not_lt]
    linarith
  · simp only [loraZones, if_true, inZone, MARGIN, SWITCH_W, SWITCH_PAD, ARROW_W,
      STRENGTH_NUM_W]
    rw [decide_eq_false_iff_not]
    rintro ⟨h1, h2⟩
    linarith
  · simp only [loraZones, if_true, inZone, MARGIN, SWITCH_W, SWITCH_PAD, ARROW_W,
      STRENGTH_NUM_W]
    rw [decide_eq_false_iff_not]
    rintro ⟨h1, h2⟩
    linarith
  · simp only [loraZones, if_true, inZone, MARGIN, SWITCH_W, SWITCH_PAD, ARROW_W,
      STRENGTH_NUM_W]
    rw [decide_eq_false_iff_not]
    rintro ⟨h1, h2⟩
    linarith
  · simp only [loraZones, if_true, inOpt, inZone, MARGIN, SWITCH_W, SWITCH_PAD, ARROW_W,
      STRENGTH_NUM_W]
    rw [decide_eq_false_iff_not]
    rintro ⟨h1, h2⟩
    linarith

/-- **C2**: for a press–move–release sequence starting (and released) on a
strength-number zone (the primary zone in either mode — first four
conjuncts — or the dual-mode secondary zone — last conjunct):
(a) if every move stays within the 2-pixel threshold,
no value changes, no overlay opens, and the release falls through to click
handling, arming the double-click timer (`lastStrengthClick := T`);
(b) there is an above-threshold move iff `lastBig` is `some`, and in that
case the release is consumed — the final value is
`start + lastDisplacement * 0.01` clamped and rounded, the click timer is
untouched and no overlay ever opens; (c) after each above-threshold move the
value equals `start + displacement * 0.01` clamped to `[-20,20]` and rounded
to 2 decimals. -/
theorem C2_drag_vs_click (dual : Bool) (width : ℚ) (hw : 180 ≤ width)
    (v : SlotValue) (L L2 T : ℕ) (x0 c0 xr : ℚ) (cs : List ℚ)
    (hx0 : inZone x0 (loraZones width dual).strengthNum = true)
    (hxr : inZone xr (loraZones width dual).strengthNum = true)
    (hT : L + 500 ≤ T) :
    ((∀ c ∈ cs, |c - c0| ≤ 2) →
      runMouse dual width ⟨v, none, L, L2⟩
          (WEvent.down x0 c0 :: (cs.map WEvent.move ++ [WEvent.up xr T]))
        = (⟨v, none, T, L2⟩, [])) ∧
    ((lastBig c0 cs).isSome = true ↔ ∃ c ∈ cs, 2 < |c - c0|) ∧
    (∀ dx : ℚ, lastBig c0 cs = some dx →
      runMouse dual width ⟨v, none, L, L2⟩
          (WEvent.down x0 c0 :: (cs.map WEvent.move ++ [WEvent.up xr T]))
        = (⟨setKey .strength (round2 (clampQ (v.strength + dx * 0.01))) v, none, L, L2⟩,
          [])) ∧
    (∀ i : ℕ, ∀ hi : i < cs.length, 2 < |cs[i] - c0| →
      (runMouse dual width ⟨v, none, L, L2⟩
          (WEvent.down x0 c0 :: (cs.take (i + 1)).map WEvent.move)).1.value
        = setKey .strength (round2 (clampQ (v.strength + (cs[i] - c0) * 0.01))) v) ∧
    (∀ y0 yr : ℚ,
      inOpt y0 (loraZones width true).strengthNum2 = true →
      inOpt yr (loraZones width true).strengthNum2 = true →
      L2 + 500 ≤ T →
      ((∀ c ∈ cs, |c - c0| ≤ 2) →
        runMouse true width ⟨v, none, L, L2⟩
            (WEvent.down y0 c0 :: (cs.map WEvent.move ++ [WEvent.up yr T]))
          = (⟨v, none, L, T⟩, [])) ∧
      (∀ dx : ℚ, lastBig c0 cs = some dx →
        runMouse true width ⟨v, none, L, L2⟩
            (WEvent.down y0 c0 :: (cs.map WEvent.move ++ [WEvent.up yr T]))
          = (⟨setKey .strengthTwo
                (round2 (clampQ (keyStart .strengthTwo v + dx * 0.01))) v,
              none, L, L2⟩, [])) ∧
      (∀ i : ℕ, ∀ hi : i < cs.length, 2 < |cs[i] - c0| →
        (runMouse true width ⟨v, none, L, L2⟩
            (WEvent.down y0 c0 :: (cs.take (i + 1)).map WEvent.move)).1.value
          = setKey .strengthTwo
              (round2 (clampQ (keyStart .strengthTwo v + (cs[i] - c0) * 0.01))) v)) := by
  have hzone := strengthNum_noEarlierZone dual width xr hw hxr
  have harm : widgetMouse dual width ⟨v, none, L, L2⟩ (WEvent.down x0 c0)
      = ⟨⟨v, some ⟨.strength, c0, v.strength, false⟩, L, L2⟩, true, none, false⟩ := by
    simp only [widgetMouse]
    rw [if_pos hx0]
  have hnotlt : ¬ (T - L < 500) := by omega
  have hclick : ∀ (vv : SlotValue) (dd : Option DragState) (l2 : ℕ),
      clickChain dual (loraZones width dual) xr T ⟨vv, dd, L, l2⟩
        = ⟨⟨vv, dd, T, l2⟩, true, none, false⟩ := by
    intro vv dd l2
    unfold clickChain
    dsimp only
    rw [if_neg hzone.1, if_neg (by rw [hzone.2]; exact Bool.false_ne_true), if_pos hxr,
      if_neg hnotlt]
  have hupNoDrag : ∀ (vv : SlotValue) (l2 : ℕ),
      widgetMouse dual width ⟨vv, some ⟨.strength, c0, v.strength, false⟩, L, l2⟩
          (WEvent.up xr T)
        = ⟨⟨vv, none, T, l2⟩, true, none, false⟩ := by
    intro vv l2
    simp [widgetMouse, hclick]
  have hupDragged : ∀ (vv : SlotValue) (l2 : ℕ),
      widgetMouse dual width ⟨vv, some ⟨.strength, c0, v.strength, true⟩, L, l2⟩
          (WEvent.up xr T)
        = ⟨⟨vv, none, L, l2⟩, true, none, false⟩ := by
    intro vv l2
    simp [widgetMouse]
  refine ⟨?_, lastBig_isSome_iff c0 cs, ?_, ?_, ?_⟩
  · intro hsmall
    obtain ⟨hlb, hany⟩ := lastBig_none_of_small c0 cs hsmall
    rw [runMouse_cons, harm]
    dsimp only
    rw [runMouse_append, runMouse_moveRun, hlb, hany]
    simp only [applyLastBig, Bool.or_false]
    rw [runMouse_cons, hupNoDrag v L2]
    simp [runMouse]
  · intro dx hdx
    have hany : cs.any (fun c => decide (2 < |c - c0|)) = true := by
      rcases (lastBig_isSome_iff c0 cs).mp (by simp [hdx]) with ⟨y, hy, hy2⟩
      exact List.any_eq_true.mpr ⟨y, hy, by simpa using hy2⟩
    rw [runMouse_cons, harm]
    dsimp only
    rw [runMouse_append, runMouse_moveRun, hdx, hany]
    simp only [applyLastBig, Bool.or_true]
    rw [runMouse_cons, hupDragged _ L2]
    simp [runMouse]
  · intro i hi hbig
    have htake : cs.take (i + 1) = cs.take i ++ [cs[i]] := by
      rw [← List.take_concat_get cs i hi, List.concat_eq_append]
    rw [htake, runMouse_cons, harm]
    dsimp only
    rw [runMouse_moveRun, lastBig_append_one, if_pos hbig]
    simp [applyLastBig]
  · intro y0 yr hy0 hyr hT2
    have hz0 := strengthNum2_noEarlierZone width y0 hw hy0
    have hz2 := strengthNum2_noEarlierZone width yr hw hyr
    have harm2 : widgetMouse true width ⟨v, none, L, L2⟩ (WEvent.down y0 c0)
        = ⟨⟨v, some ⟨.strengthTwo, c0, keyStart .strengthTwo v, false⟩, L, L2⟩,
          true, none, false⟩ := by
      simp only [widgetMouse]
      rw [if_neg (by rw [hz0.2.2.1]; exact Bool.false_ne_true)]
      rw [if_pos (by simp [hy0])]
    have hnotlt2 : ¬ (T - L2 < 500) := by omega
    have hclick2 : ∀ (vv : SlotValue) (dd : Option DragState) (l : ℕ),
        clickChain true (loraZones width true) yr T ⟨vv, dd, l, L2⟩
          = ⟨⟨vv, dd, l, T⟩, true, none, false⟩ := by
      intro vv dd l
      unfold clickChain
      dsimp only
      rw [if_neg hz2.1,
        if_neg (by rw [hz2.2.1]; exact Bool.false_ne_true),
        if_neg (by rw [hz2.2.2.1]; exact Bool.false_ne_true),
        if_neg (by rw [hz2.2.2.2.1]; exact Bool.false_ne_true),
        if_neg (by simp [hz2.2.2.2.2]),
        if_pos (by simp [hyr]),
        if_neg hnotlt2]
    have hup2NoDrag : ∀ (vv : SlotValue),
        widgetMouse true width
            ⟨vv, some ⟨.strengthTwo, c0, keyStart .strengthTwo v, false⟩, L, L2⟩
            (WEvent.up yr T)
          = ⟨⟨vv, none, L, T⟩, true, none, false⟩ := by
      intro vv
      simp [widgetMouse, hclick2]
    have hup2Dragged : ∀ (vv : SlotValue),
        widgetMouse true width
            ⟨vv, some ⟨.strengthTwo, c0, keyStart .strengthTwo v, true⟩, L, L2⟩
            (WEvent.up yr T)
          = ⟨⟨vv, none, L, L2⟩, true, none, false⟩ := by
      intro vv
      simp [widgetMouse]
    refine ⟨?_, ?_, ?_⟩
    · intro hsmall
      obtain ⟨hlb, hany⟩ := lastBig_none_of_small c0 cs hsmall
      rw [runMouse_cons, harm2]
      dsimp only
      rw [runMouse_append, runMouse_moveRun, hlb, hany]
      simp only [applyLastBig, Bool.or_false]
      rw [runMouse_cons, hup2NoDrag v]
      simp [runMouse]
    · intro dx hdx
      have hany : cs.any (fun c => decide (2 < |c - c0|)) = true := by
        rcases (lastBig_isSome_iff c0 cs).mp (by simp [hdx]) with ⟨y, hy, hy2⟩
        exact List.any_eq_true.mpr ⟨y, hy, by simpa using hy2⟩
      rw [runMouse_cons, harm2]
      dsimp only
      rw [runMouse_append, runMouse_moveRun, hdx, hany]
      simp only [applyLastBig, Bool.or_true]
      rw [runMouse_cons, hup2Dragged _]
      simp [runMouse]
    · intro i hi hbig
      have htake : cs.take (i + 1) = cs.take i ++ [cs[i]] := by
        rw [← List.take_concat_get cs i hi, List.concat_eq_append]
      rw [htake, runMouse_cons, harm2]
      dsimp only
      rw [runMouse_moveRun, lastBig_append_one, if_pos hbig]
      simp [applyLastBig]

/-- Witness for C2 (part (a)) on a concrete small drag that falls through to
a click, arming the double-click timer. -/
theorem C2_drag_vs_click_witness :
    (∀ c ∈ ([1] : List ℚ), |c - 0| ≤ 2) ∧
    runMouse false 200 ⟨setupDefaultSlot, none, 0, 0⟩
        (WEvent.down 140 0 :: (([1] : List ℚ).map WEvent.move ++ [WEvent.up 140 1000]))
      = (⟨setupDefaultSlot, none, 1000, 0⟩, []) :=
  ⟨by intro c hc; simp at hc; subst hc; norm_num,
    (C2_drag_vs_click false 200 (by norm_num) setupDefaultSlot 0 0 1000 140 0 140 [1]
      (by norm_num [inZone, loraZones, MARGIN, SWITCH_W, SWITCH_PAD, ARROW_W, STRENGTH_NUM_W])
      (by norm_num [inZone, loraZones, MARGIN, SWITCH_W, SWITCH_PAD, ARROW_W, STRENGTH_NUM_W])
      (by norm_num)).1
      (by intro c hc; simp at hc; subst hc; norm_num)⟩

/-- **C10**: in dual mode, a slot with absent `strengthTwo` renders the
secondary channel with `strength`; a press on the secondary number zone arms
a drag whose start value is `strength`; the secondary arrow clicks start
from `strength` and materialise `strengthTwo` (primary untouched); an
above-threshold drag move materialises `strengthTwo` from the
primary-based start value, leaving `strength` unchanged. -/
theorem C10_secondary_fallback (width : ℚ) (v : SlotValue) (hv : v.strengthTwo = none)
    (L L2 : ℕ) (x cx : ℚ)
    (h1 : inZone x (loraZones width true).strengthNum = false)
    (h2 : inOpt x (loraZones width true).strengthNum2 = true) :
    drawnStrengthTwo v = v.strength ∧
    (widgetMouse true width ⟨v, none, L, L2⟩ (WEvent.down x cx)).st
      = ⟨v, some ⟨.strengthTwo, cx, v.strength, false⟩, L, L2⟩ ∧
    (arrowLeft2Click v).strengthTwo = some (round2 (max (-20) (v.strength - 0.05))) ∧
    (arrowLeft2Click v).strength = v.strength ∧
    (arrowRight2Click v).strengthTwo = some (round2 (min 20 (v.strength + 0.05))) ∧
    (arrowRight2Click v).strength = v.strength ∧
    (∀ dx : ℚ, 2 < |dx| →
      (widgetMouse true width ⟨v, some ⟨.strengthTwo, cx, v.strength, false⟩, L, L2⟩
          (WEvent.move (cx + dx))).st.value
        = { v with strengthTwo := some (round2 (clampQ (v.strength + dx * 0.01))) }) := by
  refine ⟨by simp [drawnStrengthTwo, hv], ?_, by simp [arrowLeft2Click, keyStart, hv],
    rfl, by simp [arrowRight2Click, keyStart, hv], rfl, ?_⟩
  · simp only [widgetMouse]
    rw [if_neg (by rw [h1]; exact Bool.false_ne_true)]
    rw [if_pos (by simp [h2])]
    simp [keyStart, hv]
  · intro dx hdx
    have hsub : cx + dx - cx = dx := by ring
    simp only [widgetMouse, hsub]
    rw [if_pos hdx]
    simp [setKey]

/-- Witness for C10 at a concrete dual-mode layout and slot. -/
theorem C10_secondary_fallback_witness :
    setupDefaultSlot.strengthTwo = none ∧
    inZone 250 (loraZones 300 true).strengthNum = false ∧
    inOpt 250 (loraZones 300 true).strengthNum2 = true ∧
    drawnStrengthTwo setupDefaultSlot = setupDefaultSlot.strength :=
  ⟨rfl,
    by norm_num [inZone, loraZones, MARGIN, SWITCH_W, SWITCH_PAD, ARROW_W, STRENGTH_NUM_W],
    by norm_num [inOpt, inZone, loraZones, MARGIN, SWITCH_W, SWITCH_PAD, ARROW_W,
      STRENGTH_NUM_W],
    (C10_secondary_fallback 300 setupDefaultSlot rfl 0 0 250 0
      (by norm_num [inZone, loraZones, MARGIN, SWITCH_W, SWITCH_PAD, ARROW_W, STRENGTH_NUM_W])
      (by norm_num [inOpt, inZone, loraZones, MARGIN, SWITCH_W, SWITCH_PAD, ARROW_W,
        STRENGTH_NUM_W])).1⟩

end ModelManager
